import Mathlib

/-!
Verification of the `CircularQueue<T>` class from the repository's
data-structure documentation (TypeScript).  The class is embedded shallowly:

* the backing JS array `queue` becomes a `List (Option α)` (a hole / `undefined`
  slot is `none`, a written slot `some v`);
* the numeric fields `frontIndex`, `rearIndex` are `Int` (the sentinel `-1` is
  kept as in the source), `size` is the array length as a `Nat`;
* the JS `%` operator is the truncated remainder `Int.tmod`; division by zero
  yields `NaN` in JS, modelled as `none`, and any `==` comparison against `NaN`
  is false (JS also has `-0`, but `-0 == 0` holds in JS, so plain integers are
  a faithful model of the comparisons performed here);
* `throw new Error(...)` becomes an `Except` error result.  The source throws
  before any field assignment, so a failed call leaves the object exactly as it
  was; in the embedding a failed call simply returns no new state, and
  `runOpsTotal` below makes the caller continue with the unchanged state.
-/

/-- JS remainder `a % b` on integers: truncated remainder (sign of the
dividend, like `Int.tmod`); `b = 0` gives `NaN`, modelled as `none`. -/
def jsMod (a b : Int) : Option Int :=
  if b = 0 then none else some (Int.tmod a b)

/-- JS `==` of an integer against a possibly-`NaN` number: any comparison with
`NaN` is false. -/
def jsEq (x : Int) (y : Option Int) : Prop := y = some x

instance (x : Int) (y : Option Int) : Decidable (jsEq x y) :=
  inferInstanceAs (Decidable (y = some x))

/-- JS array read `q[i]`: out-of-range or negative indices and holes give
`undefined` (`none`). -/
def jsGet {α : Type} (q : List (Option α)) (i : Int) : Option α :=
  if i < 0 then none else q.getD i.toNat none

/-- The two `throw new Error(...)` sites of the class, plus the `RangeError`
that `new Array(n)` raises for a negative length. -/
inductive QueueError where
  | queueFull          -- 'Queue is full'
  | queueEmpty         -- 'Queue is empty'
  | invalidArrayLength -- JS RangeError: invalid array length
deriving DecidableEq, Repr

/-- JS values returned by `peek()`: a stored element, `null`, or `undefined`. -/
inductive JSVal (α : Type) where
  | val : α → JSVal α
  | null : JSVal α
  | undefined : JSVal α
deriving DecidableEq, Repr

/-- State of a `CircularQueue<T>` object: fields `queue`, `frontIndex`,
`rearIndex`, `size` exactly as in the class. -/
structure CircularQueue (α : Type) where
  queue : List (Option α)
  frontIndex : Int
  rearIndex : Int
  size : Nat
deriving DecidableEq, Repr

/-- The `constructor(size)` body: `new Array(size)` (all slots holes; a
negative length raises a JS RangeError), `frontIndex = rearIndex = -1`,
`this.size = size`. -/
def newCircularQueue (α : Type) (size : Int) : Except QueueError (CircularQueue α) :=
  if size < 0 then .error .invalidArrayLength
  else .ok { queue := List.replicate size.toNat none
             frontIndex := -1
             rearIndex := -1
             size := size.toNat }

/-- The fullness test of `enqueue`, verbatim from the source:
`(this.frontIndex == 0 && this.rearIndex == this.size - 1) ||
 this.rearIndex == (this.frontIndex - 1) % (this.size - 1)`. -/
def CircularQueue.fullCheck {α : Type} (s : CircularQueue α) : Prop :=
  (s.frontIndex = 0 ∧ s.rearIndex = (s.size : Int) - 1) ∨
  jsEq s.rearIndex (jsMod (s.frontIndex - 1) ((s.size : Int) - 1))

instance {α : Type} (s : CircularQueue α) : Decidable s.fullCheck :=
  inferInstanceAs (Decidable (_ ∨ _))

/-- `enqueue(item)`: throw 'Queue is full' when the fullness test fires;
otherwise initialize both indices on an empty queue, wrap `rearIndex` to 0 at
the end of the array, or advance `rearIndex`, and store the item there. -/
def CircularQueue.enqueue {α : Type} (s : CircularQueue α) (item : α) :
    Except QueueError (CircularQueue α) :=
  if s.fullCheck then
    .error .queueFull
  else if s.frontIndex = -1 then
    .ok { s with frontIndex := 0, rearIndex := 0, queue := s.queue.set 0 (some item) }
  else if s.rearIndex = (s.size : Int) - 1 ∧ s.frontIndex ≠ 0 then
    .ok { s with rearIndex := 0, queue := s.queue.set 0 (some item) }
  else
    .ok { s with rearIndex := s.rearIndex + 1
                 queue := s.queue.set (s.rearIndex + 1).toNat (some item) }

/-- `dequeue()`: throw 'Queue is empty' on the sentinel; otherwise read the
front slot, then reset both indices (last element), wrap `frontIndex` to 0, or
advance it.  The backing array is not written. -/
def CircularQueue.dequeue {α : Type} (s : CircularQueue α) :
    Except QueueError (Option α × CircularQueue α) :=
  if s.frontIndex = -1 then
    .error .queueEmpty
  else
    let item := jsGet s.queue s.frontIndex
    if s.frontIndex = s.rearIndex then
      .ok (item, { s with frontIndex := -1, rearIndex := -1 })
    else if s.frontIndex = (s.size : Int) - 1 then
      .ok (item, { s with frontIndex := 0 })
    else
      .ok (item, { s with frontIndex := s.frontIndex + 1 })

/-- `peek()`: `null` on the empty sentinel, otherwise the front slot (which is
`undefined` if that slot is a hole).  Never throws, never mutates. -/
def CircularQueue.peek {α : Type} (s : CircularQueue α) : JSVal α :=
  if s.frontIndex = -1 then .null
  else match jsGet s.queue s.frontIndex with
    | some v => .val v
    | none => .undefined

/-- `isEmpty()`: `frontIndex == -1`. -/
def CircularQueue.isEmpty {α : Type} (s : CircularQueue α) : Bool :=
  s.frontIndex = -1

/-- `length()`: 0 when empty; `rearIndex - frontIndex + 1` when the rear is
ahead; `size - (frontIndex - rearIndex - 1)` in the wrapped case. -/
def CircularQueue.length {α : Type} (s : CircularQueue α) : Int :=
  if s.frontIndex = -1 then 0
  else if s.frontIndex ≤ s.rearIndex then s.rearIndex - s.frontIndex + 1
  else (s.size : Int) - (s.frontIndex - s.rearIndex - 1)

/-- One step of the default (front-to-rear) iterator, iterated `n` times
(`n` is the `totalItems` snapshot; the loop also stops on `index === -1`).
The index is `none` when it has become `NaN` (then `index === -1` is false,
`storage[NaN]` is `undefined`, and the index stays `NaN`). -/
def CircularQueue.iterFwdAux {α : Type} (q : List (Option α)) (size : Nat) :
    Option Int → Nat → List (Option α)
  | _, 0 => []
  | none, n + 1 => none :: iterFwdAux q size none n
  | some index, n + 1 =>
    if index = -1 then []
    else jsGet q index :: iterFwdAux q size (jsMod (index + 1) (size : Int)) n

/-- The sequence of values yielded by `[Symbol.iterator]()` when consumed to
exhaustion: starts at `frontIndex`, steps by `(index + 1) % this.size`, and
runs for `this.length()` yields. -/
def CircularQueue.forwardIterList {α : Type} (s : CircularQueue α) : List (Option α) :=
  iterFwdAux s.queue s.size (some s.frontIndex) s.length.toNat

/-- One step of `reverseIterator()`, stepping by `(index - 1 + size) % size`. -/
def CircularQueue.iterRevAux {α : Type} (q : List (Option α)) (size : Nat) :
    Option Int → Nat → List (Option α)
  | _, 0 => []
  | none, n + 1 => none :: iterRevAux q size none n
  | some index, n + 1 =>
    if index = -1 then []
    else jsGet q index :: iterRevAux q size (jsMod (index - 1 + (size : Int)) (size : Int)) n

/-- The sequence of values yielded by `reverseIterator()` when consumed to
exhaustion: starts at `rearIndex` and steps backward circularly. -/
def CircularQueue.reverseIterList {α : Type} (s : CircularQueue α) : List (Option α) :=
  iterRevAux s.queue s.size (some s.rearIndex) s.length.toNat

/-- Abstraction relation: queue state `s` holds exactly the elements of `l`,
oldest first.  The backing array has length `size`; an empty `l` is the double
`-1` sentinel; otherwise `frontIndex` is in range, `rearIndex` is the circular
index of the last element, and the `i`-th logical element sits (written, not a
hole) at slot `(frontIndex + i) % size`.  Slots outside the window are
unconstrained (they may hold stale values). -/
def CircularQueue.Represents {α : Type} (s : CircularQueue α) (l : List α) : Prop :=
  s.queue.length = s.size ∧ l.length ≤ s.size ∧
  (l = [] → s.frontIndex = -1 ∧ s.rearIndex = -1) ∧
  (l ≠ [] →
    0 ≤ s.frontIndex ∧ s.frontIndex < (s.size : Int) ∧
    s.rearIndex = (s.frontIndex + l.length - 1) % (s.size : Int) ∧
    ∀ i : Nat, i < l.length →
      s.queue.getD ((s.frontIndex.toNat + i) % s.size) none = l.get? i)

instance {α : Type} [DecidableEq α] (s : CircularQueue α) (l : List α) :
    Decidable (s.Represents l) := by
  unfold CircularQueue.Represents
  infer_instance

/-- Operations applied to a queue in the run semantics below. -/
inductive Op (α : Type) where
  | enq : α → Op α
  | deq : Op α
deriving DecidableEq, Repr

/-- Run a list of operations, aborting (like an uncaught exception) as soon as
one throws; collects the values returned by the dequeues. -/
def runOps {α : Type} (s : CircularQueue α) :
    List (Op α) → Option (CircularQueue α × List (Option α))
  | [] => some (s, [])
  | Op.enq x :: ops =>
    match s.enqueue x with
    | .error _ => none
    | .ok s' => runOps s' ops
  | Op.deq :: ops =>
    match s.dequeue with
    | .error _ => none
    | .ok (v, s') => (runOps s' ops).map (fun p => (p.1, v :: p.2))

/-- Run a list of operations where a thrown error is caught by the caller and
the run continues: the source throws before mutating any field, so the state
after a failed call is exactly the state before it. -/
def runOpsTotal {α : Type} (s : CircularQueue α) : List (Op α) → CircularQueue α
  | [] => s
  | Op.enq x :: ops =>
    match s.enqueue x with
    | .error _ => runOpsTotal s ops
    | .ok s' => runOpsTotal s' ops
  | Op.deq :: ops =>
    match s.dequeue with
    | .error _ => runOpsTotal s ops
    | .ok (_, s') => runOpsTotal s' ops

/-- Number of `enq` operations in a list. -/
def countEnq {α : Type} : List (Op α) → Nat
  | [] => 0
  | Op.enq _ :: ops => countEnq ops + 1
  | Op.deq :: ops => countEnq ops

/-- Number of `deq` operations in a list. -/
def countDeq {α : Type} : List (Op α) → Nat
  | [] => 0
  | Op.enq _ :: ops => countDeq ops
  | Op.deq :: ops => countDeq ops + 1

/-- The state a successful `new CircularQueue(cap)` produces. -/
def initQueue (α : Type) (cap : Nat) : CircularQueue α :=
  { queue := List.replicate cap none, frontIndex := -1, rearIndex := -1, size := cap }

/-! ### Arithmetic and list helpers -/

theorem emod_double {a b : Int} (h0 : 0 ≤ a) (h2 : a < 2 * b) :
    a % b = if a < b then a else a - b := by
  split_ifs with h
  · exact Int.emod_eq_of_lt h0 h
  · have hb : 0 < b := by omega
    have h1 : (a - b) + b * 1 = a := by ring
    have : (a - b) % b = a % b := by
      conv_rhs => rw [← h1]
      rw [Int.add_mul_emod_self_left]
    rw [← this, Int.emod_eq_of_lt (by omega) (by omega)]

theorem natMod_double {a b : Nat} (h2 : a < 2 * b) :
    a % b = if a < b then a else a - b := by
  split_ifs with h
  · exact Nat.mod_eq_of_lt h
  · rw [Nat.mod_eq_sub_mod (by omega), Nat.mod_eq_of_lt (by omega)]

theorem getD_set_self {α : Type} (q : List (Option α)) {i : Nat} (h : i < q.length)
    (a : Option α) : (q.set i a).getD i none = a := by
  rw [List.getD_eq_get?, List.get?_set]
  simp only [if_pos rfl]
  cases hq : q.get? i with
  | none => rw [List.get?_eq_none] at hq; omega
  | some v => rfl

theorem getD_set_other {α : Type} (q : List (Option α)) {i j : Nat} (h : i ≠ j)
    (a : Option α) : (q.set i a).getD j none = q.getD j none := by
  rw [List.getD_eq_get?, List.getD_eq_get?, List.get?_set, if_neg h]

/-! ### Consequences of the abstraction relation -/

/-- In a non-empty represented state the rear index is the front index plus the
length minus one, possibly wrapped once past the end of the array. -/
theorem CircularQueue.Represents.rear_char {α : Type} {s : CircularQueue α} {l : List α}
    (h : s.Represents l) (hne : l ≠ []) :
    (s.rearIndex = s.frontIndex + l.length - 1 ∧ s.frontIndex + l.length ≤ (s.size : Int)) ∨
    (s.rearIndex = s.frontIndex + l.length - 1 - s.size ∧ (s.size : Int) < s.frontIndex + l.length) := by
  obtain ⟨-, hlen, -, hne'⟩ := h
  obtain ⟨hf0, hfs, hrear, -⟩ := hne' hne
  have hn1 : 1 ≤ l.length := List.length_pos.mpr hne
  have ha : (0 : Int) ≤ s.frontIndex + l.length - 1 := by omega
  have hb : s.frontIndex + l.length - 1 < 2 * (s.size : Int) := by omega
  rw [emod_double ha hb] at hrear
  split_ifs at hrear with hlt
  · left; omega
  · right; omega

/-- Truncated remainder of a small negative dividend: `-a` with `0 ≤ a < b` is
its own remainder. -/
theorem tmod_neg_small {a b : Int} (h0 : 0 ≤ a) (h : a < b) : Int.tmod (-a) b = -a := by
  rw [Int.tmod_def, Int.neg_tdiv, Int.tdiv_eq_ediv h0 (by omega), Int.ediv_eq_zero_of_lt h0 h]
  ring

theorem tmod_neg_two_ne_neg_one {d : Int} (hd : 0 ≤ d) : Int.tmod (-2) d ≠ -1 := by
  have h3 : d = 0 ∨ d = 1 ∨ d = 2 ∨ 3 ≤ d := by omega
  rcases h3 with rfl | rfl | rfl | h3
  · decide
  · decide
  · decide
  · rw [show ((-2 : Int)) = -(2) from rfl, tmod_neg_small (by omega) (by omega)]
    omega

/-- Exact characterization of the source's fullness test on represented
states: it fires on a genuinely full queue, and also — spuriously — on a
capacity-2 queue holding a single element at slot 0 (there the JS expression
`(frontIndex - 1) % (size - 1)` is `(-1) % 1 = -0`, which compares equal to
`rearIndex = 0`). -/
theorem CircularQueue.fullCheck_char {α : Type} {s : CircularQueue α} {l : List α}
    (h : s.Represents l) (hs : 0 < s.size) :
    (s.fullCheck ↔
      (l.length = s.size ∨ (s.size = 2 ∧ s.frontIndex = 0 ∧ l.length = 1))) := by
  rcases eq_or_ne l [] with rfl | hne
  · obtain ⟨-, -, hemp, -⟩ := h
    obtain ⟨hf, hr⟩ := hemp rfl
    unfold CircularQueue.fullCheck jsEq jsMod
    rw [hf, hr]
    constructor
    · rintro (⟨h1, -⟩ | h2)
      · exact absurd h1 (by decide)
      · rcases Decidable.em ((s.size : Int) - 1 = 0) with hd | hd
        · rw [if_pos hd] at h2
          exact Option.noConfusion h2
        · rw [if_neg hd, show ((-1 : Int) - 1) = -2 from by norm_num,
            Option.some.injEq] at h2
          exact absurd h2 (tmod_neg_two_ne_neg_one (by omega))
    · rintro (h1 | ⟨-, h2, -⟩)
      · simp at h1; omega
      · exact absurd h2 (by decide)
  · have hn1 : 1 ≤ l.length := List.length_pos.mpr hne
    have hrc := h.rear_char hne
    obtain ⟨-, hlen, -, hne'⟩ := h
    obtain ⟨hf0, hfs, hrear, -⟩ := hne' hne
    have hrnn : 0 ≤ s.rearIndex := by
      rw [hrear]; exact Int.emod_nonneg _ (by omega)
    unfold CircularQueue.fullCheck jsEq jsMod
    by_cases hf : s.frontIndex = 0
    · have hsz : s.size = 1 ∨ s.size = 2 ∨ 3 ≤ s.size := by omega
      rcases hsz with h1 | h2 | h3
      · rw [hf, h1]
        norm_num
        omega
      · rw [hf, h2]
        norm_num
        omega
      · rw [hf]
        rw [if_neg (by omega : ¬((s.size : Int) - 1 = 0))]
        rw [show ((0 : Int) - 1) = -(1) from rfl, tmod_neg_small (by omega) (by omega)]
        simp only [Option.some.injEq, true_and, and_true]
        omega
    · have hd : ¬((s.size : Int) - 1 = 0) := by omega
      rw [if_neg hd]
      rw [Int.tmod_eq_of_lt (by omega) (by omega)]
      simp only [Option.some.injEq, true_and, and_true]
      omega

/-- `length()` computes the logical element count. -/
theorem CircularQueue.length_spec {α : Type} {s : CircularQueue α} {l : List α}
    (h : s.Represents l) : s.length = (l.length : Int) := by
  rcases eq_or_ne l [] with rfl | hne
  · obtain ⟨-, -, hemp, -⟩ := h
    obtain ⟨hf, -⟩ := hemp rfl
    simp [CircularQueue.length, hf]
  · have hn1 : 1 ≤ l.length := List.length_pos.mpr hne
    have hrc := h.rear_char hne
    obtain ⟨-, hlen, -, hne'⟩ := h
    obtain ⟨hf0, hfs, -, -⟩ := hne' hne
    rcases hrc with ⟨hr, hb⟩ | ⟨hr, hb⟩ <;>
      · unfold CircularQueue.length
        split_ifs <;> omega

/-- When the fullness test does not fire, `enqueue` succeeds and the resulting
state represents `l ++ [x]` (the item is stored at the slot one past the old
rear, wrapping to slot 0 at the end of the array). -/
theorem CircularQueue.enqueue_ok {α : Type} {s : CircularQueue α} {l : List α} (x : α)
    (h : s.Represents l) (hs : 0 < s.size) (hchk : ¬ s.fullCheck) :
    ∃ s', s.enqueue x = .ok s' ∧ s'.Represents (l ++ [x]) ∧ s'.size = s.size := by
  have hchar := CircularQueue.fullCheck_char h hs
  have hnf : l.length ≠ s.size := fun he => hchk (hchar.mpr (Or.inl he))
  have hlen2 : (l ++ [x]).length = l.length + 1 := by simp
  rcases eq_or_ne l [] with rfl | hne
  · obtain ⟨hql, -, hemp, -⟩ := h
    obtain ⟨hf, -⟩ := hemp rfl
    refine ⟨{ s with frontIndex := 0, rearIndex := 0, queue := s.queue.set 0 (some x) }, by unfold CircularQueue.enqueue; rw [if_neg hchk, if_pos hf], ?_, rfl⟩
    refine ⟨by rw [List.length_set]; exact hql, by rw [hlen2]; simpa using hs, by simp, ?_⟩
    rintro -
    refine ⟨le_refl 0, by show (0 : Int) < (s.size : Int); exact_mod_cast hs, ?_, ?_⟩
    · show (0 : Int) = ((0 : Int) + ↑([] ++ [x] : List α).length - 1) % ↑s.size
      rw [hlen2]
      norm_num
    · intro i hi
      rw [hlen2] at hi
      have hi0 : i = 0 := by simpa using hi
      subst hi0
      have hidx : (Int.toNat 0 + 0) % s.size = 0 := by simp
      rw [hidx, getD_set_self _ (by omega)]
      rfl
  · have hn1 : 1 ≤ l.length := List.length_pos.mpr hne
    have hrc := h.rear_char hne
    obtain ⟨hql, hlen, -, hne'⟩ := h
    obtain ⟨hf0, hfs, hrear, hwin⟩ := hne' hne
    have hrnn : 0 ≤ s.rearIndex := by
      rw [hrear]; exact Int.emod_nonneg _ (by omega)
    have hfne : ¬ s.frontIndex = -1 := by omega
    have hF : ((s.frontIndex.toNat : Int)) = s.frontIndex := Int.toNat_of_nonneg hf0
    by_cases hb2 : s.rearIndex = (s.size : Int) - 1 ∧ s.frontIndex ≠ 0
    · -- wrap branch: store at slot 0
      have hfn : s.frontIndex + l.length = (s.size : Int) := by
        rcases hrc with ⟨hr, hb⟩ | ⟨hr, hb⟩ <;> omega
      have hf1 : 1 ≤ s.frontIndex := by
        rcases eq_or_ne s.frontIndex 0 with h0 | h0
        · exact absurd h0 hb2.2
        · omega
      refine ⟨{ s with rearIndex := 0, queue := s.queue.set 0 (some x) }, by unfold CircularQueue.enqueue; rw [if_neg hchk, if_neg hfne, if_pos hb2], ?_, rfl⟩
      refine ⟨by rw [List.length_set]; exact hql, by rw [hlen2]; show l.length + 1 ≤ s.size; omega, by simp, ?_⟩
      rintro -
      refine ⟨hf0, hfs, ?_, ?_⟩
      · show (0 : Int) = (s.frontIndex + ↑(l ++ [x]).length - 1) % ↑s.size
        rw [hlen2]
        push_cast
        rw [show s.frontIndex + (↑l.length + 1) - 1 = (s.frontIndex + ↑l.length) from by ring,
          hfn, Int.emod_self]
      · intro i hi
        rw [hlen2] at hi
        rcases Nat.lt_or_ge i l.length with hilt | hige
        · have hidx : (s.frontIndex.toNat + i) % s.size = s.frontIndex.toNat + i := by
            apply Nat.mod_eq_of_lt; omega
          rw [hidx, getD_set_other _ (by omega), List.get?_append hilt]
          have hw := hwin i hilt
          rw [hidx] at hw
          exact hw
        · have hin : i = l.length := by omega
          subst hin
          have hidx : (s.frontIndex.toNat + l.length) % s.size = 0 := by
            have hq : s.frontIndex.toNat + l.length = s.size := by omega
            rw [hq, Nat.mod_self]
          rw [hidx, getD_set_self _ (by omega), List.get?_concat_length]
    · -- plain branch: rearIndex++ and store there
      refine ⟨{ s with rearIndex := s.rearIndex + 1, queue := s.queue.set (s.rearIndex + 1).toNat (some x) }, by unfold CircularQueue.enqueue; rw [if_neg hchk, if_neg hfne, if_neg hb2], ?_, rfl⟩
      rcases hrc with ⟨hr, hb⟩ | ⟨hr, hb⟩
      · -- no wrap yet: rear = front + n - 1, front + n ≤ size
        have hfn : s.frontIndex + l.length < (s.size : Int) := by
          rcases eq_or_lt_of_le hb with he | hlt
          · exfalso
            rcases eq_or_ne s.frontIndex 0 with h0 | h0
            · apply hnf; omega
            · exact hb2 ⟨by omega, h0⟩
          · exact hlt
        have hR : (s.rearIndex + 1).toNat = s.frontIndex.toNat + l.length := by omega
        refine ⟨by rw [List.length_set]; exact hql, by rw [hlen2]; show l.length + 1 ≤ s.size; omega, by simp, ?_⟩
        rintro -
        refine ⟨hf0, hfs, ?_, ?_⟩
        · show s.rearIndex + 1 = (s.frontIndex + ↑(l ++ [x]).length - 1) % ↑s.size
          rw [hlen2]
          push_cast
          rw [show s.frontIndex + (↑l.length + 1) - 1 = (s.frontIndex + ↑l.length) from by ring,
            Int.emod_eq_of_lt (by omega) (by omega)]
          omega
        · intro i hi
          rw [hlen2] at hi
          rw [hR]
          rcases Nat.lt_or_ge i l.length with hilt | hige
          · have hidx : (s.frontIndex.toNat + i) % s.size = s.frontIndex.toNat + i := by
              apply Nat.mod_eq_of_lt; omega
            rw [hidx, getD_set_other _ (by omega), List.get?_append hilt]
            have hw := hwin i hilt
            rw [hidx] at hw
            exact hw
          · have hin : i = l.length := by omega
            subst hin
            have hidx : (s.frontIndex.toNat + l.length) % s.size
                = s.frontIndex.toNat + l.length := by
              apply Nat.mod_eq_of_lt; omega
            rw [hidx, getD_set_self _ (by omega), List.get?_concat_length]
      · -- wrapped already: rear = front + n - 1 - size
        have hR : (s.rearIndex + 1).toNat = s.frontIndex.toNat + l.length - s.size := by omega
        refine ⟨by rw [List.length_set]; exact hql, by rw [hlen2]; show l.length + 1 ≤ s.size; omega, by simp, ?_⟩
        rintro -
        refine ⟨hf0, hfs, ?_, ?_⟩
        · show s.rearIndex + 1 = (s.frontIndex + ↑(l ++ [x]).length - 1) % ↑s.size
          rw [hlen2]
          push_cast
          rw [show s.frontIndex + (↑l.length + 1) - 1 = (s.frontIndex + ↑l.length) from by ring,
            emod_double (by omega) (by omega), if_neg (by omega)]
          omega
        · intro i hi
          rw [hlen2] at hi
          rw [hR]
          rcases Nat.lt_or_ge i l.length with hilt | hige
          · rcases Nat.lt_or_ge (s.frontIndex.toNat + i) s.size with hlow | hhigh
            · have hidx : (s.frontIndex.toNat + i) % s.size = s.frontIndex.toNat + i :=
                Nat.mod_eq_of_lt hlow
              rw [hidx, getD_set_other _ (by omega), List.get?_append hilt]
              have hw := hwin i hilt
              rw [hidx] at hw
              exact hw
            · have hidx : (s.frontIndex.toNat + i) % s.size = s.frontIndex.toNat + i - s.size := by
                rw [natMod_double (by omega), if_neg (by omega)]
              rw [hidx, getD_set_other _ (by omega), List.get?_append hilt]
              have hw := hwin i hilt
              rw [hidx] at hw
              exact hw
          · have hin : i = l.length := by omega
            subst hin
            have hidx : (s.frontIndex.toNat + l.length) % s.size
                = s.frontIndex.toNat + l.length - s.size := by
              rw [natMod_double (by omega), if_neg (by omega)]
            rw [hidx, getD_set_self _ (by omega), List.get?_concat_length]

/-- A firing fullness test makes `enqueue` throw 'Queue is full'; the throw
happens before any assignment, so nothing is mutated. -/
theorem CircularQueue.enqueue_err {α : Type} {s : CircularQueue α} (x : α)
    (hchk : s.fullCheck) : s.enqueue x = .error .queueFull := by
  unfold CircularQueue.enqueue
  rw [if_pos hchk]

/-- `dequeue` on an empty (double `-1` sentinel) state throws 'Queue is empty';
the throw happens before any assignment. -/
theorem CircularQueue.dequeue_err {α : Type} {s : CircularQueue α}
    (h : s.Represents []) : s.dequeue = .error .queueEmpty := by
  obtain ⟨-, -, hemp, -⟩ := h
  obtain ⟨hf, -⟩ := hemp rfl
  unfold CircularQueue.dequeue
  rw [if_pos hf]

/-- `dequeue` on a non-empty state returns the oldest element and afterwards
represents the tail; only the index fields change, the backing array is
untouched. -/
theorem CircularQueue.dequeue_ok {α : Type} {s : CircularQueue α} {x : α} {t : List α}
    (h : s.Represents (x :: t)) :
    ∃ s', s.dequeue = .ok (some x, s') ∧ s'.Represents t ∧ s'.size = s.size ∧
      s'.queue = s.queue := by
  have hne : (x :: t) ≠ [] := by simp
  have hrc := h.rear_char hne
  obtain ⟨hql, hlen, -, hne'⟩ := h
  obtain ⟨hf0, hfs, hrear, hwin⟩ := hne' hne
  have hlc : (x :: t).length = t.length + 1 := rfl
  have hs : 0 < s.size := by omega
  have hfne : ¬ s.frontIndex = -1 := by omega
  have hF : ((s.frontIndex.toNat : Int)) = s.frontIndex := Int.toNat_of_nonneg hf0
  have hitem : jsGet s.queue s.frontIndex = some x := by
    unfold jsGet
    rw [if_neg (by omega)]
    have hw := hwin 0 (by omega)
    rw [Nat.add_zero, Nat.mod_eq_of_lt (by omega)] at hw
    exact hw
  rcases eq_or_ne t [] with rfl | htne
  · -- single element: both indices reset to the sentinel
    have hp0 : ([] : List α).length = 0 := rfl
    have hp1 : ([x] : List α).length = 1 := rfl
    have hfr : s.frontIndex = s.rearIndex := by
      rcases hrc with ⟨hr, hb⟩ | ⟨hr, hb⟩ <;> omega
    refine ⟨{ s with frontIndex := -1, rearIndex := -1 }, ?_, ?_, rfl, rfl⟩
    · unfold CircularQueue.dequeue
      rw [if_neg hfne, hitem, if_pos hfr]
    · exact ⟨hql, by show ([] : List α).length ≤ s.size; omega,
        fun _ => ⟨rfl, rfl⟩, fun habs => absurd rfl habs⟩
  · have ht1 : 1 ≤ t.length := List.length_pos.mpr htne
    have hfr : ¬ s.frontIndex = s.rearIndex := by
      rcases hrc with ⟨hr, hb⟩ | ⟨hr, hb⟩ <;> omega
    by_cases hb2 : s.frontIndex = (s.size : Int) - 1
    · -- front wraps to slot 0
      have hrval : s.rearIndex = (t.length : Int) - 1 := by
        rcases hrc with ⟨hr, hb⟩ | ⟨hr, hb⟩ <;> omega
      refine ⟨{ s with frontIndex := 0 }, ?_, ?_, rfl, rfl⟩
      · unfold CircularQueue.dequeue
        rw [if_neg hfne, hitem, if_neg hfr, if_pos hb2]
      · refine ⟨hql, by show t.length ≤ s.size; omega, by simp [htne], ?_⟩
        rintro -
        refine ⟨le_refl 0, by show (0 : Int) < (s.size : Int); exact_mod_cast hs, ?_, ?_⟩
        · show s.rearIndex = ((0 : Int) + ↑t.length - 1) % ↑s.size
          rw [hrval, Int.emod_eq_of_lt (by omega) (by omega)]
          ring
        · intro i hi
          have hw := hwin (i + 1) (by omega)
          have hidx : (s.frontIndex.toNat + (i + 1)) % s.size = i := by
            have hq : s.frontIndex.toNat + (i + 1) = s.size + i := by omega
            rw [hq, Nat.add_mod_left, Nat.mod_eq_of_lt (by omega)]
          rw [hidx] at hw
          have hidx2 : (Int.toNat 0 + i) % s.size = i := by
            rw [Int.toNat_zero, Nat.zero_add, Nat.mod_eq_of_lt (by omega)]
          rw [hidx2]
          exact hw
    · -- front advances by one
      refine ⟨{ s with frontIndex := s.frontIndex + 1 }, ?_, ?_, rfl, rfl⟩
      · unfold CircularQueue.dequeue
        rw [if_neg hfne, hitem, if_neg hfr, if_neg hb2]
      · refine ⟨hql, by show t.length ≤ s.size; omega, by simp [htne], ?_⟩
        rintro -
        refine ⟨by show (0 : Int) ≤ s.frontIndex + 1; omega,
          by show s.frontIndex + 1 < (s.size : Int); omega, ?_, ?_⟩
        · show s.rearIndex = (s.frontIndex + 1 + ↑t.length - 1) % ↑s.size
          rw [hrear, hlc]
          congr 1
          push_cast
          ring
        · intro i hi
          have hw := hwin (i + 1) (by omega)
          have hidx : ((s.frontIndex + 1).toNat + i) % s.size
              = (s.frontIndex.toNat + (i + 1)) % s.size := by
            congr 1
            omega
          rw [hidx]
          exact hw

/-- The freshly constructed queue represents the empty sequence. -/
theorem initQueue_represents (α : Type) (cap : Nat) : (initQueue α cap).Represents [] :=
  ⟨List.length_replicate cap none, Nat.zero_le cap,
    fun _ => ⟨rfl, rfl⟩, fun habs => absurd rfl habs⟩

/-- A successful run reaches a represented state, and its logical length
satisfies the counting identity (enqueues minus dequeues). -/
theorem runOps_represents {α : Type} (ops : List (Op α)) :
    ∀ (s : CircularQueue α) (l : List α) (s' : CircularQueue α) (tr : List (Option α)),
      s.Represents l → 0 < s.size → runOps s ops = some (s', tr) →
      ∃ l', s'.Represents l' ∧ s'.size = s.size ∧
        l'.length + countDeq ops = l.length + countEnq ops := by
  induction ops with
  | nil =>
    intro s l s' tr h hs hrun
    unfold runOps at hrun
    rw [Option.some.injEq, Prod.mk.injEq] at hrun
    obtain ⟨hseq, -⟩ := hrun
    exact ⟨l, hseq ▸ h, hseq ▸ rfl, by simp [countDeq, countEnq]⟩
  | cons op ops ih =>
    intro s l s' tr h hs hrun
    cases op with
    | enq x =>
      unfold runOps at hrun
      by_cases hchk : s.fullCheck
      · rw [CircularQueue.enqueue_err x hchk] at hrun
        exact absurd hrun (by simp)
      · obtain ⟨s1, he, hr1, hsz⟩ := CircularQueue.enqueue_ok x h hs hchk
        rw [he] at hrun
        obtain ⟨l', hrep, hsz', hcount⟩ := ih s1 (l ++ [x]) s' tr hr1 (by omega) hrun
        have hl1 : (l ++ [x]).length = l.length + 1 := by simp
        refine ⟨l', hrep, by omega, ?_⟩
        simp only [countEnq, countDeq]
        omega
    | deq =>
      unfold runOps at hrun
      cases l with
      | nil =>
        rw [CircularQueue.dequeue_err h] at hrun
        exact absurd hrun (by simp)
      | cons y t =>
        obtain ⟨s1, hd, hr1, hsz, -⟩ := CircularQueue.dequeue_ok h
        rw [hd] at hrun
        have hrun' : Option.map (fun p => (p.1, some y :: p.2)) (runOps s1 ops)
            = some (s', tr) := hrun
        cases hrr : runOps s1 ops with
        | none =>
          rw [hrr] at hrun'
          exact absurd hrun' (by simp)
        | some p =>
          rw [hrr, Option.map_some', Option.some.injEq, Prod.mk.injEq] at hrun'
          obtain ⟨hps, -⟩ := hrun'
          obtain ⟨l', hrep, hsz', hcount⟩ := ih s1 t p.1 p.2 hr1 (by omega) (by rw [hrr])
          have hyt : (y :: t).length = t.length + 1 := rfl
          refine ⟨l', hps ▸ hrep, by rw [← hps]; omega, ?_⟩
          simp only [countEnq, countDeq]
          omega

/-- Any run — failed operations included, which leave the state untouched —
keeps the state represented, with the capacity unchanged. -/
theorem runOpsTotal_represents {α : Type} (ops : List (Op α)) :
    ∀ (s : CircularQueue α) (l : List α), s.Represents l → 0 < s.size →
      ∃ l', (runOpsTotal s ops).Represents l' ∧ (runOpsTotal s ops).size = s.size := by
  induction ops with
  | nil => exact fun s l h hs => ⟨l, h, rfl⟩
  | cons op ops ih =>
    intro s l h hs
    cases op with
    | enq x =>
      by_cases hchk : s.fullCheck
      · have he : runOpsTotal s (Op.enq x :: ops) = runOpsTotal s ops := by
          simp only [runOpsTotal, CircularQueue.enqueue_err x hchk]
        rw [he]
        exact ih s l h hs
      · obtain ⟨s1, he, hr1, hsz⟩ := CircularQueue.enqueue_ok x h hs hchk
        have he2 : runOpsTotal s (Op.enq x :: ops) = runOpsTotal s1 ops := by
          simp only [runOpsTotal, he]
        rw [he2]
        obtain ⟨l', h1, h2⟩ := ih s1 _ hr1 (by omega)
        exact ⟨l', h1, by omega⟩
    | deq =>
      cases l with
      | nil =>
        have he : runOpsTotal s (Op.deq :: ops) = runOpsTotal s ops := by
          simp only [runOpsTotal, CircularQueue.dequeue_err h]
        rw [he]
        exact ih s [] h hs
      | cons y t =>
        obtain ⟨s1, hd, hr1, hsz, -⟩ := CircularQueue.dequeue_ok h
        have he : runOpsTotal s (Op.deq :: ops) = runOpsTotal s1 ops := by
          simp only [runOpsTotal, hd]
        rw [he]
        obtain ⟨l', h1, h2⟩ := ih s1 t hr1 (by omega)
        exact ⟨l', h1, by omega⟩

/-- Consuming the forward iterator over a window of occupied slots yields
exactly that window. -/
theorem iterFwdAux_window {α : Type} (q : List (Option α)) (size : Nat) (hsz : 0 < size) :
    ∀ (l : List α) (f : Nat), f < size →
      (∀ i : Nat, i < l.length → q.getD ((f + i) % size) none = l.get? i) →
      CircularQueue.iterFwdAux q size (some (f : Int)) l.length = l.map some := by
  intro l
  induction l with
  | nil => intro f hf hw; rfl
  | cons x t ih =>
    intro f hf hw
    rw [List.length_cons,
      show CircularQueue.iterFwdAux q size (some (f : Int)) (t.length + 1)
        = (if (f : Int) = -1 then [] else
            jsGet q (f : Int) ::
              CircularQueue.iterFwdAux q size (jsMod ((f : Int) + 1) (size : Int)) t.length)
        from rfl]
    rw [if_neg (by omega)]
    have hhead : jsGet q (f : Int) = some x := by
      unfold jsGet
      rw [if_neg (by omega), Int.toNat_natCast]
      have hw0 := hw 0 (by simp)
      rw [Nat.add_zero, Nat.mod_eq_of_lt hf] at hw0
      exact hw0
    have hstep : jsMod ((f : Int) + 1) (size : Int) = some (((f + 1) % size : Nat) : Int) := by
      unfold jsMod
      rw [if_neg (by omega)]
      congr 1
    have hwt : ∀ i : Nat, i < t.length →
        q.getD (((f + 1) % size + i) % size) none = t.get? i := by
      intro i hi
      have hwi := hw (i + 1) (by simpa using Nat.succ_lt_succ hi)
      rw [Nat.mod_add_mod, show f + 1 + i = f + (i + 1) from by omega]
      exact hwi
    rw [hhead, hstep, ih ((f + 1) % size) (Nat.mod_lt _ hsz) hwt]
    rfl

/-- Consuming the reverse iterator over a backward window of occupied slots
yields exactly that window (a backward circular step is `+ (size - 1)` mod
`size`). -/
theorem iterRevAux_window {α : Type} (q : List (Option α)) (size : Nat) (hsz : 0 < size) :
    ∀ (l : List α) (r : Nat), r < size →
      (∀ i : Nat, i < l.length → q.getD ((r + i * (size - 1)) % size) none = l.get? i) →
      CircularQueue.iterRevAux q size (some (r : Int)) l.length = l.map some := by
  intro l
  induction l with
  | nil => intro r hr hw; rfl
  | cons x t ih =>
    intro r hr hw
    rw [List.length_cons,
      show CircularQueue.iterRevAux q size (some (r : Int)) (t.length + 1)
        = (if (r : Int) = -1 then [] else
            jsGet q (r : Int) ::
              CircularQueue.iterRevAux q size
                (jsMod ((r : Int) - 1 + (size : Int)) (size : Int)) t.length)
        from rfl]
    rw [if_neg (by omega)]
    have hhead : jsGet q (r : Int) = some x := by
      unfold jsGet
      rw [if_neg (by omega), Int.toNat_natCast]
      have hw0 := hw 0 (by simp)
      rw [Nat.mul_comm, Nat.mul_zero, Nat.add_zero, Nat.mod_eq_of_lt hr] at hw0
      exact hw0
    have hcast : ((size - 1 : Nat) : Int) = (size : Int) - 1 := by omega
    have hstep : jsMod ((r : Int) - 1 + (size : Int)) (size : Int)
        = some (((r + (size - 1)) % size : Nat) : Int) := by
      unfold jsMod
      rw [if_neg (by omega)]
      congr 1
      rw [Int.tmod_eq_emod (by omega) (by omega), Int.ofNat_emod]
      congr 1
      push_cast [hcast]
      ring
    have hwt : ∀ i : Nat, i < t.length →
        q.getD (((r + (size - 1)) % size + i * (size - 1)) % size) none = t.get? i := by
      intro i hi
      have hwi := hw (i + 1) (by simpa using Nat.succ_lt_succ hi)
      have hmul : r + (size - 1) + i * (size - 1) = r + (i + 1) * (size - 1) := by ring
      rw [Nat.mod_add_mod, hmul]
      exact hwi
    rw [hhead, hstep, ih ((r + (size - 1)) % size) (Nat.mod_lt _ hsz) hwt]
    rfl

/-- The forward iterator yields the represented sequence, oldest first. -/
theorem CircularQueue.forwardIterList_spec {α : Type} {s : CircularQueue α} {l : List α}
    (h : s.Represents l) : s.forwardIterList = l.map some := by
  have hfuel : s.length.toNat = l.length := by
    rw [CircularQueue.length_spec h, Int.toNat_natCast]
  rcases eq_or_ne l [] with rfl | hne
  · unfold CircularQueue.forwardIterList
    rw [hfuel]
    rfl
  · have hn1 : 1 ≤ l.length := List.length_pos.mpr hne
    obtain ⟨hql, hlen, -, hne'⟩ := h
    obtain ⟨hf0, hfs, hrear, hwin⟩ := hne' hne
    have hs : 0 < s.size := by omega
    have hF : ((s.frontIndex.toNat : Int)) = s.frontIndex := Int.toNat_of_nonneg hf0
    unfold CircularQueue.forwardIterList
    rw [hfuel, ← hF]
    exact iterFwdAux_window s.queue s.size hs l s.frontIndex.toNat (by omega) hwin

/-- The reverse iterator yields the represented sequence, newest first. -/
theorem CircularQueue.reverseIterList_spec {α : Type} {s : CircularQueue α} {l : List α}
    (h : s.Represents l) : s.reverseIterList = l.reverse.map some := by
  have hfuel : s.length.toNat = l.length := by
    rw [CircularQueue.length_spec h, Int.toNat_natCast]
  rcases eq_or_ne l [] with rfl | hne
  · unfold CircularQueue.reverseIterList
    rw [hfuel]
    rfl
  · have hn1 : 1 ≤ l.length := List.length_pos.mpr hne
    obtain ⟨hql, hlen, -, hne'⟩ := h
    obtain ⟨hf0, hfs, hrear, hwin⟩ := hne' hne
    have hs : 0 < s.size := by omega
    have hF : ((s.frontIndex.toNat : Int)) = s.frontIndex := Int.toNat_of_nonneg hf0
    have hrN : s.rearIndex = (((s.frontIndex.toNat + (l.length - 1)) % s.size : Nat) : Int) := by
      rw [hrear, Int.ofNat_emod]
      congr 1
      push_cast
      omega
    unfold CircularQueue.reverseIterList
    rw [hfuel, ← List.length_reverse l, hrN]
    refine iterRevAux_window s.queue s.size hs l.reverse _ (Nat.mod_lt _ hs) ?_
    intro i hi
    rw [List.length_reverse] at hi
    have hmul : i * (s.size - 1) + i = i * s.size := by
      have h1 : s.size - 1 + 1 = s.size := by omega
      calc i * (s.size - 1) + i = i * (s.size - 1 + 1) := by ring
        _ = i * s.size := by rw [h1]
    have hidx : ((s.frontIndex.toNat + (l.length - 1)) % s.size + i * (s.size - 1)) % s.size
        = (s.frontIndex.toNat + (l.length - 1 - i)) % s.size := by
      rw [Nat.mod_add_mod,
        show s.frontIndex.toNat + (l.length - 1) + i * (s.size - 1)
          = s.frontIndex.toNat + (l.length - 1 - i) + i * s.size from by omega,
        Nat.add_mul_mod_self_right]
    rw [hidx, List.get?_reverse hi]
    exact hwin (l.length - 1 - i) (by omega)

/-- In a non-empty represented state the front slot holds the oldest element. -/
theorem CircularQueue.front_slot {α : Type} {s : CircularQueue α} {x : α} {t : List α}
    (h : s.Represents (x :: t)) : jsGet s.queue s.frontIndex = some x := by
  have hne : (x :: t) ≠ [] := by simp
  obtain ⟨hql, hlen, -, hne'⟩ := h
  obtain ⟨hf0, hfs, -, hwin⟩ := hne' hne
  unfold jsGet
  rw [if_neg (by omega)]
  have hw := hwin 0 (by simp)
  rw [Nat.add_zero, Nat.mod_eq_of_lt (by omega)] at hw
  exact hw

/-! ### The claims -/

/-- C1 (code bug): the FIFO law fails in the liveness direction at capacity 2.
After one successful enqueue the queue holds 1 of 2 elements (`length() = 1`),
yet the very next enqueue — an enqueue on a queue that is not full — throws
'Queue is full', because the fullness test evaluates
`(frontIndex - 1) % (this.size - 1)` = `(-1) % 1` = `-0` in JS and `-0`
compares equal to `rearIndex = 0`.  Hence the admissible operation sequence
`[enqueue 10, enqueue 20]` (which never enqueues into a full queue) aborts
instead of running to completion, so a capacity-2 queue can never reach the
promised round-trip; the dequeued values that do occur remain in FIFO order,
but the claimed guarantee for all admissible sequences is broken. -/
theorem c1_enqueue_spurious_full_capacity_two :
    CircularQueue.enqueue (initQueue Nat 2) 10
      = .ok ⟨[some 10, none], 0, 0, 2⟩ ∧
    CircularQueue.length (⟨[some 10, none], 0, 0, 2⟩ : CircularQueue Nat) = 1 ∧
    (1 : Int) < 2 ∧
    CircularQueue.enqueue (⟨[some 10, none], 0, 0, 2⟩ : CircularQueue Nat) 20
      = .error .queueFull ∧
    runOps (initQueue Nat 2) [Op.enq 10, Op.enq 20] = none := by
  refine ⟨rfl, rfl, by norm_num, rfl, rfl⟩

/-- C2 (counterexample): constructing a queue with capacity 0 — a
non-positive capacity — succeeds with no error at all, refuting the claim
that every capacity ≤ 0 is rejected. -/
theorem c2_construct_zero_capacity_succeeds :
    newCircularQueue Nat 0 = .ok ⟨[], -1, -1, 0⟩ := rfl

/-- C2 (amended): the constructor performs no capacity validation of its own:
a negative capacity fails only with the JS `RangeError` that `new Array(size)`
raises, while every capacity ≥ 0 — including the non-positive capacity 0 —
succeeds and yields the empty sentinel state of that capacity. -/
theorem c2_constructor_validation (c : Int) :
    (c < 0 → newCircularQueue Nat c = .error .invalidArrayLength) ∧
    (0 ≤ c → ∃ s, newCircularQueue Nat c = .ok s ∧ s.Represents [] ∧
      s.isEmpty = true ∧ s.size = c.toNat) := by
  constructor
  · intro hc
    unfold newCircularQueue
    rw [if_pos hc]
  · intro hc
    refine ⟨initQueue Nat c.toNat, ?_, initQueue_represents Nat c.toNat, rfl, rfl⟩
    unfold newCircularQueue initQueue
    rw [if_neg (by omega)]

theorem c2_constructor_validation_witness :
    (newCircularQueue Nat (-1) = .error .invalidArrayLength) ∧
    (∃ s, newCircularQueue Nat 5 = .ok s ∧ s.Represents [] ∧
      s.isEmpty = true ∧ s.size = (5 : Int).toNat) :=
  ⟨(c2_constructor_validation (-1)).1 (by norm_num),
   (c2_constructor_validation 5).2 (by norm_num)⟩

/-- C3: enqueueing into a full queue (logical count = capacity) always throws
'Queue is full' (`CapacityExceeded`), and the state is exactly unchanged: the
source throws before assigning any field, which the run semantics reflects —
after the caught error the caller still holds the identical state.  The test
reads only the pre-insertion `frontIndex`/`rearIndex`, so fullness is decided
before any mutation, and no element is overwritten. -/
theorem c3_enqueue_full_rejects {α : Type} (s : CircularQueue α) (l : List α) (x : α)
    (h : s.Represents l) (hs : 0 < s.size) (hfull : l.length = s.size) :
    s.enqueue x = .error .queueFull ∧ runOpsTotal s [Op.enq x] = s := by
  have hchk : s.fullCheck := (CircularQueue.fullCheck_char h hs).mpr (Or.inl hfull)
  have he := CircularQueue.enqueue_err x hchk
  exact ⟨he, by simp only [runOpsTotal, he]⟩

theorem c3_enqueue_full_rejects_witness :
    CircularQueue.Represents (⟨[some 7, some 8], 0, 1, 2⟩ : CircularQueue Nat) [7, 8] ∧
    (0 : Nat) < 2 ∧ ([7, 8] : List Nat).length = 2 ∧
    (CircularQueue.enqueue (⟨[some 7, some 8], 0, 1, 2⟩ : CircularQueue Nat) 9
        = .error .queueFull ∧
      runOpsTotal (⟨[some 7, some 8], 0, 1, 2⟩ : CircularQueue Nat) [Op.enq 9]
        = ⟨[some 7, some 8], 0, 1, 2⟩) :=
  ⟨by decide, by decide, by decide,
    c3_enqueue_full_rejects ⟨[some 7, some 8], 0, 1, 2⟩ [7, 8] 9
      (by decide) (by decide) (by decide)⟩

/-- C4: dequeueing from an empty queue always throws 'Queue is empty'
(`EmptyBuffer`) and leaves the state exactly unchanged — the sentinel test
precedes every read and assignment, so no stale or undefined value is ever
returned silently. -/
theorem c4_dequeue_empty_rejects {α : Type} (s : CircularQueue α)
    (h : s.Represents []) :
    s.dequeue = .error .queueEmpty ∧ runOpsTotal s [Op.deq] = s := by
  have hd := CircularQueue.dequeue_err h
  exact ⟨hd, by simp only [runOpsTotal, hd]⟩

theorem c4_dequeue_empty_rejects_witness :
    CircularQueue.Represents (⟨[none], -1, -1, 1⟩ : CircularQueue Nat) [] ∧
    (CircularQueue.dequeue (⟨[none], -1, -1, 1⟩ : CircularQueue Nat)
        = .error .queueEmpty ∧
      runOpsTotal (⟨[none], -1, -1, 1⟩ : CircularQueue Nat) [Op.deq]
        = ⟨[none], -1, -1, 1⟩) :=
  ⟨by decide, c4_dequeue_empty_rejects ⟨[none], -1, -1, 1⟩ (by decide)⟩

/-- C5: after any successful operation sequence, `length()` equals the number
of enqueues minus the number of dequeues performed, and always lies in
`[0, capacity]` — never negative, never above capacity — including wrapped
states with `rearIndex < frontIndex`. -/
theorem c5_length_counts {α : Type} (cap : Nat) (ops : List (Op α))
    (s' : CircularQueue α) (tr : List (Option α)) (hc : 0 < cap)
    (hrun : runOps (initQueue α cap) ops = some (s', tr)) :
    s'.length = (countEnq ops : Int) - countDeq ops ∧
    0 ≤ s'.length ∧ s'.length ≤ (cap : Int) := by
  obtain ⟨l', hrep, hsz, hcount⟩ :=
    runOps_represents ops (initQueue α cap) [] s' tr (initQueue_represents α cap) hc hrun
  have hlen := CircularQueue.length_spec hrep
  have h0 : ([] : List α).length = 0 := rfl
  have hub : l'.length ≤ s'.size := hrep.2.1
  have hsz' : s'.size = cap := hsz
  refine ⟨by omega, by omega, by omega⟩

theorem c5_length_counts_witness :
    (0 : Nat) < 3 ∧
    runOps (initQueue Nat 3) [Op.enq 10, Op.enq 20, Op.enq 30, Op.deq, Op.enq 40]
      = some (⟨[some 40, some 20, some 30], 1, 0, 3⟩, [some 10]) ∧
    (CircularQueue.length (⟨[some 40, some 20, some 30], 1, 0, 3⟩ : CircularQueue Nat)
        = (countEnq [Op.enq 10, Op.enq 20, Op.enq 30, Op.deq, Op.enq 40] : Int)
          - countDeq [Op.enq 10, Op.enq 20, Op.enq 30, Op.deq, Op.enq 40] ∧
      0 ≤ CircularQueue.length (⟨[some 40, some 20, some 30], 1, 0, 3⟩ : CircularQueue Nat) ∧
      CircularQueue.length (⟨[some 40, some 20, some 30], 1, 0, 3⟩ : CircularQueue Nat)
        ≤ (3 : Int)) :=
  ⟨by decide, rfl,
    c5_length_counts 3 [Op.enq 10, Op.enq 20, Op.enq 30, Op.deq, Op.enq 40]
      ⟨[some 40, some 20, some 30], 1, 0, 3⟩ [some 10] (by decide) rfl⟩

/-- C6: a capacity-1 queue degrades correctly to a single-slot buffer:
enqueue on the fresh queue succeeds and fills it (`length() = 1`), an
immediately following enqueue throws 'Queue is full', dequeue returns the
stored element and resets both indices to the sentinel (empty), and a further
enqueue succeeds from that clean state. -/
theorem c6_capacity_one_cycle (α : Type) (x y z : α) :
    newCircularQueue α 1 = .ok ⟨[none], -1, -1, 1⟩ ∧
    CircularQueue.enqueue (⟨[none], -1, -1, 1⟩ : CircularQueue α) x
      = .ok ⟨[some x], 0, 0, 1⟩ ∧
    CircularQueue.length (⟨[some x], 0, 0, 1⟩ : CircularQueue α) = 1 ∧
    CircularQueue.enqueue (⟨[some x], 0, 0, 1⟩ : CircularQueue α) y
      = .error .queueFull ∧
    CircularQueue.dequeue (⟨[some x], 0, 0, 1⟩ : CircularQueue α)
      = .ok (some x, ⟨[some x], -1, -1, 1⟩) ∧
    CircularQueue.isEmpty (⟨[some x], -1, -1, 1⟩ : CircularQueue α) = true ∧
    CircularQueue.enqueue (⟨[some x], -1, -1, 1⟩ : CircularQueue α) z
      = .ok ⟨[some z], 0, 0, 1⟩ :=
  ⟨rfl, rfl, rfl, rfl, rfl, rfl, rfl⟩

/-- C7: `peek()` never signals an error: on an empty queue it returns the
explicit no-value indicator `null` (not an exception), and on a non-empty
queue it returns exactly the value `dequeue()` would return.  In the
embedding `peek` is a pure function of the state — the source only reads
`queue[frontIndex]` and assigns nothing — so the queue is unchanged by it. -/
theorem c7_peek_never_errors {α : Type} (s : CircularQueue α) (l : List α)
    (h : s.Represents l) :
    (l = [] → s.peek = JSVal.null) ∧
    (∀ x t, l = x :: t → s.peek = JSVal.val x ∧
      ∃ s', s.dequeue = .ok (some x, s')) := by
  constructor
  · rintro rfl
    obtain ⟨-, -, hemp, -⟩ := h
    obtain ⟨hf, -⟩ := hemp rfl
    unfold CircularQueue.peek
    rw [if_pos hf]
  · rintro x t rfl
    have hne : (x :: t) ≠ [] := by simp
    have hslot := CircularQueue.front_slot h
    obtain ⟨s', hd, -, -, -⟩ := CircularQueue.dequeue_ok h
    have hf0 : 0 ≤ s.frontIndex := (h.2.2.2 hne).1
    refine ⟨?_, ⟨s', hd⟩⟩
    unfold CircularQueue.peek
    rw [if_neg (by omega), hslot]

theorem c7_peek_never_errors_witness :
    CircularQueue.Represents (⟨[some 5], 0, 0, 1⟩ : CircularQueue Nat) [5] ∧
    ((([5] : List Nat) = [] →
        CircularQueue.peek (⟨[some 5], 0, 0, 1⟩ : CircularQueue Nat) = JSVal.null) ∧
      (∀ x t, ([5] : List Nat) = x :: t →
        CircularQueue.peek (⟨[some 5], 0, 0, 1⟩ : CircularQueue Nat) = JSVal.val x ∧
        ∃ s', CircularQueue.dequeue (⟨[some 5], 0, 0, 1⟩ : CircularQueue Nat)
          = .ok (some x, s'))) :=
  ⟨by decide, c7_peek_never_errors ⟨[some 5], 0, 0, 1⟩ [5] (by decide)⟩

/-- C8: on an unmutated queue, the forward iterator yields the logical
contents oldest-to-newest and the reverse iterator yields exactly the
reversed sequence, both of length `length()`. -/
theorem c8_forward_reverse_reversed {α : Type} (s : CircularQueue α) (l : List α)
    (h : s.Represents l) :
    s.forwardIterList = l.map some ∧
    s.reverseIterList = s.forwardIterList.reverse ∧
    s.forwardIterList.length = s.length.toNat ∧
    s.reverseIterList.length = s.length.toNat := by
  have hf := CircularQueue.forwardIterList_spec h
  have hr := CircularQueue.reverseIterList_spec h
  have hlen := CircularQueue.length_spec h
  refine ⟨hf, ?_, ?_, ?_⟩
  · rw [hf, hr, List.map_reverse]
  · rw [hf, hlen, List.length_map, Int.toNat_natCast]
  · rw [hr, hlen, List.length_map, List.length_reverse, Int.toNat_natCast]

theorem c8_forward_reverse_reversed_witness :
    CircularQueue.Represents (⟨[some 3, some 1, some 2], 1, 0, 3⟩ : CircularQueue Nat)
      [1, 2, 3] ∧
    (CircularQueue.forwardIterList (⟨[some 3, some 1, some 2], 1, 0, 3⟩ : CircularQueue Nat)
        = ([1, 2, 3] : List Nat).map some ∧
      CircularQueue.reverseIterList (⟨[some 3, some 1, some 2], 1, 0, 3⟩ : CircularQueue Nat)
        = (CircularQueue.forwardIterList
            (⟨[some 3, some 1, some 2], 1, 0, 3⟩ : CircularQueue Nat)).reverse ∧
      (CircularQueue.forwardIterList
          (⟨[some 3, some 1, some 2], 1, 0, 3⟩ : CircularQueue Nat)).length
        = (CircularQueue.length
            (⟨[some 3, some 1, some 2], 1, 0, 3⟩ : CircularQueue Nat)).toNat ∧
      (CircularQueue.reverseIterList
          (⟨[some 3, some 1, some 2], 1, 0, 3⟩ : CircularQueue Nat)).length
        = (CircularQueue.length
            (⟨[some 3, some 1, some 2], 1, 0, 3⟩ : CircularQueue Nat)).toNat) :=
  ⟨by decide, c8_forward_reverse_reversed ⟨[some 3, some 1, some 2], 1, 0, 3⟩ [1, 2, 3]
    (by decide)⟩

/-- C9: after every operation sequence — failed calls throw before mutating,
so they leave the state unchanged — the sentinel invariant holds:
`frontIndex = -1` iff `rearIndex = -1` iff the queue is empty (`length() = 0`,
equivalently `isEmpty()`); and when non-empty, both indices lie in
`[0, capacity - 1]` and the count `(rearIndex - frontIndex + capacity) %
capacity + 1` lies in `[1, capacity]`. -/
theorem c9_sentinel_invariant {α : Type} (cap : Nat) (ops : List (Op α))
    (s' : CircularQueue α) (hc : 0 < cap)
    (hs' : s' = runOpsTotal (initQueue α cap) ops) :
    (s'.frontIndex = -1 ↔ s'.rearIndex = -1) ∧
    (s'.frontIndex = -1 ↔ s'.length = 0) ∧
    (s'.isEmpty = true ↔ s'.length = 0) ∧
    (s'.frontIndex ≠ -1 →
      0 ≤ s'.frontIndex ∧ s'.frontIndex ≤ (cap : Int) - 1 ∧
      0 ≤ s'.rearIndex ∧ s'.rearIndex ≤ (cap : Int) - 1 ∧
      1 ≤ (s'.rearIndex - s'.frontIndex + cap) % (cap : Int) + 1 ∧
      (s'.rearIndex - s'.frontIndex + cap) % (cap : Int) + 1 ≤ (cap : Int)) := by
  obtain ⟨l', hrep, hsz⟩ := runOpsTotal_represents ops (initQueue α cap) []
    (initQueue_represents α cap) hc
  rw [← hs'] at hrep hsz
  have hsz' : s'.size = cap := hsz
  have e1 : 0 ≤ (s'.rearIndex - s'.frontIndex + cap) % (cap : Int) :=
    Int.emod_nonneg _ (by omega)
  have e2 : (s'.rearIndex - s'.frontIndex + cap) % (cap : Int) < (cap : Int) :=
    Int.emod_lt_of_pos _ (by omega)
  rcases eq_or_ne l' [] with rfl | hne
  · obtain ⟨-, -, hemp, -⟩ := hrep
    obtain ⟨hf, hr⟩ := hemp rfl
    have hlen : s'.length = 0 := by
      unfold CircularQueue.length
      rw [if_pos hf]
    refine ⟨by rw [hf, hr], by simp [hf, hlen], ?_, fun hcon => absurd hf hcon⟩
    simp [CircularQueue.isEmpty, hf, hlen]
  · have hn1 : 1 ≤ l'.length := List.length_pos.mpr hne
    have hlen : s'.length = (l'.length : Int) := CircularQueue.length_spec hrep
    obtain ⟨-, hlenle, -, hne'⟩ := hrep
    obtain ⟨hf0, hfs, hrear, -⟩ := hne' hne
    have hrnn : 0 ≤ s'.rearIndex := by
      rw [hrear]; exact Int.emod_nonneg _ (by omega)
    have hrlt : s'.rearIndex < (s'.size : Int) := by
      rw [hrear]; exact Int.emod_lt_of_pos _ (by omega)
    refine ⟨⟨fun hx => by omega, fun hx => by omega⟩,
      ⟨fun hx => by omega, fun hx => by omega⟩,
      ⟨fun hx => ?_, fun hx => ?_⟩, fun hcon => ⟨hf0, by omega, hrnn, by omega, by omega, by omega⟩⟩
    · have : s'.frontIndex = -1 := by
        simpa [CircularQueue.isEmpty] using hx
      omega
    · exact absurd hx (by omega)

theorem c9_sentinel_invariant_witness :
    (0 : Nat) < 2 ∧
    (⟨[some 1, none], -1, -1, 2⟩ : CircularQueue Nat)
      = runOpsTotal (initQueue Nat 2) [Op.enq 1, Op.enq 2, Op.deq, Op.deq] ∧
    ((CircularQueue.frontIndex (⟨[some 1, none], -1, -1, 2⟩ : CircularQueue Nat) = -1 ↔
        CircularQueue.rearIndex (⟨[some 1, none], -1, -1, 2⟩ : CircularQueue Nat) = -1) ∧
      (CircularQueue.frontIndex (⟨[some 1, none], -1, -1, 2⟩ : CircularQueue Nat) = -1 ↔
        CircularQueue.length (⟨[some 1, none], -1, -1, 2⟩ : CircularQueue Nat) = 0) ∧
      (CircularQueue.isEmpty (⟨[some 1, none], -1, -1, 2⟩ : CircularQueue Nat) = true ↔
        CircularQueue.length (⟨[some 1, none], -1, -1, 2⟩ : CircularQueue Nat) = 0) ∧
      (CircularQueue.frontIndex (⟨[some 1, none], -1, -1, 2⟩ : CircularQueue Nat) ≠ -1 →
        0 ≤ CircularQueue.frontIndex (⟨[some 1, none], -1, -1, 2⟩ : CircularQueue Nat) ∧
        CircularQueue.frontIndex (⟨[some 1, none], -1, -1, 2⟩ : CircularQueue Nat)
          ≤ (2 : Int) - 1 ∧
        0 ≤ CircularQueue.rearIndex (⟨[some 1, none], -1, -1, 2⟩ : CircularQueue Nat) ∧
        CircularQueue.rearIndex (⟨[some 1, none], -1, -1, 2⟩ : CircularQueue Nat)
          ≤ (2 : Int) - 1 ∧
        1 ≤ (CircularQueue.rearIndex (⟨[some 1, none], -1, -1, 2⟩ : CircularQueue Nat)
              - CircularQueue.frontIndex (⟨[some 1, none], -1, -1, 2⟩ : CircularQueue Nat)
              + (2 : Nat)) % ((2 : Nat) : Int) + 1 ∧
        (CircularQueue.rearIndex (⟨[some 1, none], -1, -1, 2⟩ : CircularQueue Nat)
              - CircularQueue.frontIndex (⟨[some 1, none], -1, -1, 2⟩ : CircularQueue Nat)
              + (2 : Nat)) % ((2 : Nat) : Int) + 1 ≤ ((2 : Nat) : Int))) :=
  ⟨by decide, by decide,
    c9_sentinel_invariant 2 [Op.enq 1, Op.enq 2, Op.deq, Op.deq]
      ⟨[some 1, none], -1, -1, 2⟩ (by decide) (by decide)⟩

/-- C10: a successful `dequeue` never writes the backing array: the storage
list is identical afterwards (so the removed element's slot still holds its
value until a later enqueue overwrites it) and `size` is unchanged; when the
last element is removed both indices reset to the sentinel, and otherwise
`rearIndex` is untouched (only `frontIndex` moves). -/
theorem c10_dequeue_frame {α : Type} (s s' : CircularQueue α) (v : Option α)
    (h : s.dequeue = .ok (v, s')) :
    s'.queue = s.queue ∧ s'.size = s.size ∧
    jsGet s'.queue s.frontIndex = v ∧
    (s.frontIndex = s.rearIndex → s'.frontIndex = -1 ∧ s'.rearIndex = -1) ∧
    (s.frontIndex ≠ s.rearIndex → s'.rearIndex = s.rearIndex) := by
  have h' : (if s.frontIndex = -1 then
        (.error .queueEmpty : Except QueueError (Option α × CircularQueue α))
      else if s.frontIndex = s.rearIndex then
        .ok (jsGet s.queue s.frontIndex, { s with frontIndex := -1, rearIndex := -1 })
      else if s.frontIndex = (s.size : Int) - 1 then
        .ok (jsGet s.queue s.frontIndex, { s with frontIndex := 0 })
      else
        .ok (jsGet s.queue s.frontIndex, { s with frontIndex := s.frontIndex + 1 }))
      = .ok (v, s') := h
  by_cases h1 : s.frontIndex = -1
  · rw [if_pos h1] at h'
    exact absurd h' (by simp)
  · rw [if_neg h1] at h'
    by_cases h2 : s.frontIndex = s.rearIndex
    · rw [if_pos h2, Except.ok.injEq, Prod.mk.injEq] at h'
      obtain ⟨hv, hs'⟩ := h'
      subst hs'
      exact ⟨rfl, rfl, hv, fun _ => ⟨rfl, rfl⟩, fun hc => absurd h2 hc⟩
    · rw [if_neg h2] at h'
      by_cases h3 : s.frontIndex = (s.size : Int) - 1
      · rw [if_pos h3, Except.ok.injEq, Prod.mk.injEq] at h'
        obtain ⟨hv, hs'⟩ := h'
        subst hs'
        exact ⟨rfl, rfl, hv, fun hc => absurd hc h2, fun _ => rfl⟩
      · rw [if_neg h3, Except.ok.injEq, Prod.mk.injEq] at h'
        obtain ⟨hv, hs'⟩ := h'
        subst hs'
        exact ⟨rfl, rfl, hv, fun hc => absurd hc h2, fun _ => rfl⟩

theorem c10_dequeue_frame_witness :
    CircularQueue.dequeue (⟨[some 4, some 5], 0, 1, 2⟩ : CircularQueue Nat)
      = .ok (some 4, ⟨[some 4, some 5], 1, 1, 2⟩) ∧
    (CircularQueue.queue (⟨[some 4, some 5], 1, 1, 2⟩ : CircularQueue Nat)
        = CircularQueue.queue (⟨[some 4, some 5], 0, 1, 2⟩ : CircularQueue Nat) ∧
      CircularQueue.size (⟨[some 4, some 5], 1, 1, 2⟩ : CircularQueue Nat)
        = CircularQueue.size (⟨[some 4, some 5], 0, 1, 2⟩ : CircularQueue Nat) ∧
      jsGet (CircularQueue.queue (⟨[some 4, some 5], 1, 1, 2⟩ : CircularQueue Nat))
          (CircularQueue.frontIndex (⟨[some 4, some 5], 0, 1, 2⟩ : CircularQueue Nat))
        = some 4 ∧
      (CircularQueue.frontIndex (⟨[some 4, some 5], 0, 1, 2⟩ : CircularQueue Nat)
          = CircularQueue.rearIndex (⟨[some 4, some 5], 0, 1, 2⟩ : CircularQueue Nat) →
        CircularQueue.frontIndex (⟨[some 4, some 5], 1, 1, 2⟩ : CircularQueue Nat) = -1 ∧
        CircularQueue.rearIndex (⟨[some 4, some 5], 1, 1, 2⟩ : CircularQueue Nat) = -1) ∧
      (CircularQueue.frontIndex (⟨[some 4, some 5], 0, 1, 2⟩ : CircularQueue Nat)
          ≠ CircularQueue.rearIndex (⟨[some 4, some 5], 0, 1, 2⟩ : CircularQueue Nat) →
        CircularQueue.rearIndex (⟨[some 4, some 5], 1, 1, 2⟩ : CircularQueue Nat)
          = CircularQueue.rearIndex (⟨[some 4, some 5], 0, 1, 2⟩ : CircularQueue Nat))) :=
  ⟨rfl, c10_dequeue_frame ⟨[some 4, some 5], 0, 1, 2⟩ ⟨[some 4, some 5], 1, 1, 2⟩
    (some 4) rfl⟩
